import Mathlib

/-!
Verification of the `pulse_transcribe` capture–transcribe–assemble pipeline
(`src/aisp_template/main.py`).

The development shallowly embeds the program:

* `strftimeBase` — the segment identifier `start_ts.strftime("%Y%m%dT%H%M%SZ")`
  computed at the top of each `recorder_loop` iteration (lines 135–136).
* `recStep` / `recRun` — a small-step model of the `recorder_loop` coroutine
  (lines 131–147): each loop iteration suspends at `await create_subprocess_exec`
  and at `await proc.wait()`; `Task.cancel()` delivers `CancelledError` at the
  first suspension point reached once cancellation has been requested, which the
  `except asyncio.CancelledError: pass` handler turns into loop exit.  The loop
  never inspects the ffmpeg exit status or the produced artifact and
  unconditionally schedules `transcribe_file` via `create_task` (lines 140–145).
* `transcribe_file`, `runGather`, `assemble`, `gatherAssemble` — the drain and
  assembly phase of `main` (lines 178–203): `asyncio.gather(*tasks,
  return_exceptions=False)` joins task results in completion order and aborts
  with the first raised exception; on success the txt paths are sorted
  lexicographically and concatenated into `dialog_<first>_<last>.txt`.
-/

namespace PulseTranscribe


/-- Broken-down UTC time as consumed by `datetime.strftime` (line 135,
`datetime.now(UTC)`).  Only the fields used by the format `%Y%m%dT%H%M%SZ`
are represented; sub-second precision is dropped by the format itself. -/
structure UTCTime where
  year : Nat
  month : Nat
  day : Nat
  hour : Nat
  minute : Nat
  second : Nat
deriving DecidableEq, Repr

/-- Field ranges of a real UTC timestamp (as produced by `datetime.now(UTC)`
in the supported era): four-digit year, calendar month/day, 24h clock. -/
def UTCTime.Valid (t : UTCTime) : Prop :=
  1000 ≤ t.year ∧ t.year ≤ 9999 ∧ 1 ≤ t.month ∧ t.month ≤ 12 ∧
  1 ≤ t.day ∧ t.day ≤ 31 ∧ t.hour ≤ 23 ∧ t.minute ≤ 59 ∧ t.second ≤ 59

instance (t : UTCTime) : Decidable t.Valid := by
  unfold UTCTime.Valid; infer_instance

/-- Chronological order of broken-down timestamps at seconds resolution:
`a` is at least one second earlier than `b`. -/
def UTCTime.earlier (a b : UTCTime) : Prop :=
  a.year < b.year ∨ (a.year = b.year ∧ (a.month < b.month ∨ (a.month = b.month ∧
  (a.day < b.day ∨ (a.day = b.day ∧ (a.hour < b.hour ∨ (a.hour = b.hour ∧
  (a.minute < b.minute ∨ (a.minute = b.minute ∧ a.second < b.second)))))))))

instance (a b : UTCTime) : Decidable (UTCTime.earlier a b) := by
  unfold UTCTime.earlier; infer_instance

/-- Zero-padded fixed-width decimal rendering, as performed by the `%Y`, `%m`,
`%d`, `%H`, `%M`, `%S` directives of `strftime` for in-range values. -/
def padDigits : Nat → Nat → List Char
  | 0, _ => []
  | w+1, n => padDigits w (n / 10) ++ [Char.ofNat (48 + n % 10)]

/-- Model of `start_ts.strftime("%Y%m%dT%H%M%SZ")` (line 136 of the source). -/
def strftimeBase (t : UTCTime) : String :=
  ⟨padDigits 4 t.year ++ (padDigits 2 t.month ++ (padDigits 2 t.day ++
    ('T' :: (padDigits 2 t.hour ++ (padDigits 2 t.minute ++
    (padDigits 2 t.second ++ ['Z']))))))⟩

/-- Abbreviation for the strict character order used by lexicographic string
comparison. -/
def charLT (x y : Char) : Prop := x < y

/-! ### Artifact paths

`recorder_loop` records to `TEMP_DIR / f"{base}.mp4"` (line 137) and
`transcribe_file` writes `path.with_suffix(".txt")` (line 119); the assembly
step labels entries with `t.stem` (line 198). -/

/-- Path of the media artifact of segment `base`: `temp/{base}.mp4` (line 137). -/
def mp4Path (base : String) : String := "temp/" ++ base ++ ".mp4"

/-- Path of the text artifact of segment `base`: `temp/{base}.txt`. -/
def txtPath (base : String) : String := "temp/" ++ base ++ ".txt"

/-- Model of `Path.with_suffix(".txt")` for the four-character-suffix paths the
pipeline produces: replace the final `.mp4` by `.txt` (line 119). -/
def with_suffix_txt (p : String) : String :=
  ⟨p.data.take (p.data.length - 4) ++ ['.', 't', 'x', 't']⟩

/-- Model of `Path.stem` for the `temp/<base>.<ext>` paths the pipeline
produces: drop the directory (5 characters) and the suffix (4 characters). -/
def pathStem (s : String) : String :=
  ⟨(s.data.drop 5).take (s.data.length - 9)⟩

/-! ### The recorder loop

A small-step model of the `recorder_loop` coroutine (lines 131–147) together
with the cancellation protocol of `main` (`recorder.cancel()` in
`_sigint_handler`, line 173).  Each loop iteration passes two suspension
points: `await asyncio.create_subprocess_exec(*cmd)` (line 140, state
`awaitingSpawn`) and `await proc.wait()` (line 141, state `awaitingWait`);
between `proc.wait()` returning and the next iteration's first `await` the
coroutine runs synchronously (`create_task`, `tasks.append`, `datetime.now`,
`build_ffmpeg_cmd`), so cancellation requested in that window is only
delivered at the next suspension point.  Once `CancelledError` is delivered,
the `except asyncio.CancelledError: pass` handler ends the coroutine
(state `cancelled`).  The loop reads neither the ffmpeg exit status nor the
produced artifact: `await proc.wait()` discards the returned status and
`create_task(transcribe_file(outfile))` is executed unconditionally. -/

/-- Per-run environment: the wall-clock start time of each iteration, and the
outcome of each external ffmpeg invocation (exit status, whether a non-empty
artifact exists afterwards).  The last two fields exist so that theorems can
quantify over capture failures; the step function never reads them, exactly as
`recorder_loop` never does. -/
structure CaptureEnv where
  start_ts : Nat → UTCTime
  exit_code : Nat → Int
  artifact_ok : Nat → Bool

/-- Control state of the `recorder_loop` coroutine. -/
inductive RecState
  | startIter (k : Nat)
  | awaitingSpawn (k : Nat)
  | awaitingWait (k : Nat)
  | afterWait (k : Nat)
  | cancelled
deriving DecidableEq, Repr

/-- Full recorder state: control state, the shared `tasks` list of scheduled
transcription inputs (segment bases, line 144–145), and the list of iterations
whose capture process was actually spawned. -/
structure RecRunState where
  st : RecState
  tasks : List String
  started : List Nat
deriving DecidableEq, Repr

/-- One scheduler step of `recorder_loop`.  `cancelRequested` is true once
`recorder.cancel()` has been called; cancellation is delivered at the two
`await` states only. -/
def recStep (env : CaptureEnv) (cancelRequested : Bool) (s : RecRunState) : RecRunState :=
  match s.st with
  | RecState.startIter k => ⟨RecState.awaitingSpawn k, s.tasks, s.started⟩
  | RecState.awaitingSpawn k =>
      if cancelRequested then ⟨RecState.cancelled, s.tasks, s.started⟩
      else ⟨RecState.awaitingWait k, s.tasks, s.started ++ [k]⟩
  | RecState.awaitingWait k =>
      if cancelRequested then ⟨RecState.cancelled, s.tasks, s.started⟩
      else ⟨RecState.afterWait k, s.tasks, s.started⟩
  | RecState.afterWait k =>
      ⟨RecState.startIter (k + 1), s.tasks ++ [strftimeBase (env.start_ts k)], s.started⟩
  | RecState.cancelled => s

/-- The recorder run: `cancelAt` is the step index from which cancellation has
been requested (a run without cancellation takes `cancelAt` beyond the horizon
of interest). -/
def recRun (env : CaptureEnv) (cancelAt : Nat) : Nat → RecRunState
  | 0 => ⟨RecState.startIter 0, [], []⟩
  | n + 1 => recStep env (decide (cancelAt ≤ n)) (recRun env cancelAt n)

/-- Segment identifiers of the first `k` iterations. -/
def idsUpTo (env : CaptureEnv) (k : Nat) : List String :=
  (List.range k).map fun i => strftimeBase (env.start_ts i)

/-- Run invariant: the scheduled tasks are exactly one per completed iteration
and the started captures are exactly one per iteration that passed its spawn
point. -/
def RecInv (env : CaptureEnv) (s : RecRunState) : Prop :=
  (∀ k, s.st = RecState.startIter k → s.tasks = idsUpTo env k ∧ s.started = List.range k) ∧
  (∀ k, s.st = RecState.awaitingSpawn k → s.tasks = idsUpTo env k ∧ s.started = List.range k) ∧
  (∀ k, s.st = RecState.awaitingWait k → s.tasks = idsUpTo env k ∧ s.started = List.range (k + 1)) ∧
  (∀ k, s.st = RecState.afterWait k → s.tasks = idsUpTo env k ∧ s.started = List.range (k + 1))

/-- Environment of a run in which every capture succeeds. -/
def envZero : CaptureEnv :=
  ⟨fun _ => ⟨2024, 1, 1, 10, 0, 0⟩, fun _ => 0, fun _ => true⟩

/-- Environment of a run whose segment 0 capture fails: ffmpeg exits with
status 1 and leaves no usable artifact. -/
def envFail : CaptureEnv :=
  ⟨fun _ => ⟨2024, 1, 1, 10, 0, 0⟩, fun _ => 1, fun _ => false⟩

/-! ### Transcription workers and the drain barrier

`transcribe_file` (lines 111–123) sends the audio file to the service and, on
success, writes the transcript next to it, returning
`path.with_suffix(".txt")`; any service exception propagates out of the task.
`main` (lines 178–186) awaits `asyncio.gather(*tasks,
return_exceptions=False)`: results are consumed as tasks complete; the first
task that completes with an exception makes the gather re-raise it, leaving
later-completing tasks unconsumed; if no task raises, the values are returned
in task order, independent of completion order. -/

/-- Model of `transcribe_file` (lines 111–123): `svc` is the external
transcription service (returns the transcript text, or raises).  On success
the transcript is persisted and the `.txt` path is returned; on failure the
exception propagates. -/
def transcribe_file (svc : String → Except String String) (path : String) :
    Except String String :=
  match svc path with
  | Except.error e => Except.error e
  | Except.ok _text => Except.ok (with_suffix_txt path)

/-- Eventual outcomes of the transcription tasks scheduled by the recorder,
one per segment base, in task-creation order (line 144). -/
def taskOutcomes (svc : String → Except String String) (bases : List String) :
    List (Except String String) :=
  bases.map fun b => transcribe_file svc (mp4Path b)

/-- Boolean success test for a worker outcome. -/
def isOkB : Except String String → Bool
  | Except.ok _ => true
  | Except.error _ => false

/-- Value of a successful outcome (unused default for the error case). -/
def okValue : Except String String → String
  | Except.ok v => v
  | Except.error _ => ""

/-- Values of all outcomes, in task order — what `asyncio.gather` returns when
no task raised. -/
def okValues (outs : List (Except String String)) : List String :=
  outs.map okValue

/-- Core of the gather model: walk the tasks in completion order (`order` is
the list of task indices in the order they complete).  Stop at the first task
that completed with an exception, recording which tasks were consumed
(joined); with `return_exceptions=False` the first exception is re-raised. -/
def runGatherAux (outs : List (Except String String)) :
    List Nat → Option String × List Nat
  | [] => (none, [])
  | i :: rest =>
      match outs.getD i (Except.ok "") with
      | Except.error e => (some e, [i])
      | Except.ok _ =>
          ((runGatherAux outs rest).1, i :: (runGatherAux outs rest).2)

/-- Result of the drain barrier: the value `await asyncio.gather(...)`
produces (or the exception it re-raises), and the indices of the tasks whose
completion was consumed before the gather finished. -/
structure GatherOut where
  result : Except String (List String)
  joined : List Nat
deriving Repr

/-- Model of `await asyncio.gather(*tasks, return_exceptions=False)`
(line 185) for a run in which the tasks complete in the order `order`. -/
def runGather (outs : List (Except String String)) (order : List Nat) : GatherOut :=
  match runGatherAux outs order with
  | (some e, js) => ⟨Except.error e, js⟩
  | (none, js) => ⟨Except.ok (okValues outs), js⟩

/-- One entry of the final document (lines 198–200): delimiter line with the
segment id (`t.stem`), the transcript text, then a blank line. -/
def entryFor (fs : String → String) (t : String) : String :=
  "----- " ++ pathStem t ++ " -----\n" ++ fs t ++ "\n\n"

/-- Sequential concatenation of the written chunks (the `fout.write` calls of
lines 195–200 in order). -/
def docConcat : List String → String
  | [] => ""
  | e :: es => e ++ docConcat es

/-- Model of `txt_files.sort()` (line 186): Python's stable sort under the
lexicographic path order. -/
def sortTxtFiles (files : List String) : List String :=
  List.insertionSort (fun a b : String => a ≤ b) files

/-- Model of step 4 of `main` (lines 186–203): sort the txt paths; if any
exist, derive the output name from the first and last stems and concatenate
the labelled transcripts; otherwise produce nothing. `fs` maps a txt path to
the transcript text stored in it. -/
def assemble (fs : String → String) (txt_files : List String) :
    Option (String × String) :=
  match sortTxtFiles txt_files with
  | [] => none
  | first :: rest =>
      some ("temp/dialog_" ++ pathStem first ++ "_"
          ++ pathStem ((first :: rest).getLast (List.cons_ne_nil first rest)) ++ ".txt",
        docConcat ((first :: rest).map (entryFor fs)))

/-- Observable outcome of `main` after the drain barrier: a written document,
the "Brak transkrypcji do połączenia." report when there is nothing to merge,
or an exception escaping `main` (unhandled fault). -/
inductive MainOutcome
  | document (path content : String)
  | noTranscripts
  | crashed (e : String)
deriving DecidableEq, Repr

/-- Drain-then-assemble phase of `main` (lines 185–203) on given worker
outcomes and completion order. -/
def gatherAssemble (outs : List (Except String String)) (order : List Nat)
    (fs : String → String) : MainOutcome :=
  match (runGather outs order).result with
  | Except.error e => MainOutcome.crashed e
  | Except.ok files =>
      match assemble fs files with
      | none => MainOutcome.noTranscripts
      | some pd => MainOutcome.document pd.1 pd.2

/-- Transcription service that fails exactly on the middle segment of the
three-segment counterexample run. -/
def svcFailSecond : String → Except String String :=
  fun p => if p = mp4Path "20240101T100500Z" then Except.error "service error"
           else Except.ok "transcript text"

/-! ### Order-preservation of the path map and the assembly step -/

instance : IsIrrefl Char charLT := ⟨fun a h => lt_irrefl a h⟩

/-- Segment ids of the assembled document, in document order: the stems of the
sorted txt paths. -/
def docIds (ids : List String) : List String :=
  (sortTxtFiles (ids.map txtPath)).map pathStem

/-! ### Lemmas and claim theorems -/

lemma padDigits_length (w n : Nat) : (padDigits w n).length = w := by
  induction w generalizing n with
  | zero => rfl
  | succ w ih => simp [padDigits, ih]

lemma lex_cons_cases {a b : Char} {u v : List Char} :
    List.Lex charLT (a :: u) (b :: v) ↔ a < b ∨ (a = b ∧ List.Lex charLT u v) := by
  constructor
  · intro h
    cases h with
    | cons h => exact Or.inr ⟨rfl, h⟩
    | rel h => exact Or.inl h
  · intro h
    rcases h with h | ⟨rfl, h⟩
    · exact List.Lex.rel h
    · exact List.Lex.cons h

lemma lex_irrefl : ∀ l : List Char, ¬ List.Lex charLT l l := by
  intro l
  induction l with
  | nil => intro h; cases h
  | cons a l ih =>
      intro h
      rcases lex_cons_cases.mp h with h | ⟨_, h⟩
      · exact lt_irrefl a h
      · exact ih h

lemma lex_append_same (p : List Char) {u v : List Char}
    (h : List.Lex charLT u v) : List.Lex charLT (p ++ u) (p ++ v) := by
  induction p with
  | nil => exact h
  | cons a p ih => exact List.Lex.cons ih

lemma lex_append_both {x y : List Char} (s t : List Char)
    (hlen : x.length = y.length) (h : List.Lex charLT x y) :
    List.Lex charLT (x ++ s) (y ++ t) := by
  induction h with
  | nil => simp at hlen
  | rel h => exact List.Lex.rel h
  | cons h ih => exact List.Lex.cons (ih (by simpa using hlen))

lemma lex_append_same_right_iff (s : List Char) :
    ∀ x y : List Char, x.length = y.length →
      (List.Lex charLT (x ++ s) (y ++ s) ↔ List.Lex charLT x y) := by
  intro x
  induction x with
  | nil =>
      intro y hlen
      have hy : y = [] := by
        cases y with
        | nil => rfl
        | cons b bs => simp at hlen
      subst hy
      simp only [List.nil_append]
      exact ⟨fun h => absurd h (lex_irrefl s), fun h => absurd h (lex_irrefl [])⟩
  | cons a x ih =>
      intro y hlen
      cases y with
      | nil => simp at hlen
      | cons b ys =>
          simp only [List.cons_append]
          rw [lex_cons_cases, lex_cons_cases, ih ys (by simpa using hlen)]

lemma string_lt_iff_lex (a b : String) :
    a < b ↔ List.Lex charLT a.data b.data :=
  String.lt_iff_toList_lt

lemma digitChar_lt {a b : Nat} (ha : a < 10) (hb : b < 10) (h : a < b) :
    Char.ofNat (48 + a) < Char.ofNat (48 + b) := by
  have key : ∀ x : Fin 10, ∀ y : Fin 10, x.val < y.val →
      Char.ofNat (48 + x.val) < Char.ofNat (48 + y.val) := by decide
  exact key ⟨a, ha⟩ ⟨b, hb⟩ h

lemma padDigits_lt : ∀ (w : Nat) {a b : Nat}, a < 10 ^ w → b < 10 ^ w → a < b →
    List.Lex charLT (padDigits w a) (padDigits w b) := by
  intro w
  induction w with
  | zero => intro a b ha hb h; omega
  | succ w ih =>
      intro a b ha hb h
      have hqa : a / 10 < 10 ^ w := by
        rw [Nat.div_lt_iff_lt_mul (by norm_num : 0 < 10)]
        calc a < 10 ^ (w + 1) := ha
          _ = 10 ^ w * 10 := by ring
      have hqb : b / 10 < 10 ^ w := by
        rw [Nat.div_lt_iff_lt_mul (by norm_num : 0 < 10)]
        calc b < 10 ^ (w + 1) := hb
          _ = 10 ^ w * 10 := by ring
      have hq : a / 10 ≤ b / 10 := Nat.div_le_div_right (Nat.le_of_lt h)
      rcases Nat.lt_or_ge (a / 10) (b / 10) with hlt | hge
      · exact lex_append_both _ _
          (by rw [padDigits_length, padDigits_length]) (ih hqa hqb hlt)
      · have heq : a / 10 = b / 10 := Nat.le_antisymm hq hge
        have hm : a % 10 < b % 10 := by omega
        show List.Lex charLT (padDigits w (a / 10) ++ [Char.ofNat (48 + a % 10)])
          (padDigits w (b / 10) ++ [Char.ofNat (48 + b % 10)])
        rw [heq]
        exact lex_append_same _
          (List.Lex.rel (digitChar_lt (Nat.mod_lt a (by norm_num))
            (Nat.mod_lt b (by norm_num)) hm))

lemma strftime_lex {a b : UTCTime} (ha : a.Valid) (hb : b.Valid)
    (h : UTCTime.earlier a b) :
    List.Lex charLT (strftimeBase a).data (strftimeBase b).data := by
  obtain ⟨hay1, hay2, ham1, ham2, had1, had2, hah, hami, has⟩ := ha
  obtain ⟨hby1, hby2, hbm1, hbm2, hbd1, hbd2, hbh, hbmi, hbs⟩ := hb
  show List.Lex charLT
    (padDigits 4 a.year ++ (padDigits 2 a.month ++ (padDigits 2 a.day ++
      ('T' :: (padDigits 2 a.hour ++ (padDigits 2 a.minute ++
      (padDigits 2 a.second ++ ['Z'])))))))
    (padDigits 4 b.year ++ (padDigits 2 b.month ++ (padDigits 2 b.day ++
      ('T' :: (padDigits 2 b.hour ++ (padDigits 2 b.minute ++
      (padDigits 2 b.second ++ ['Z'])))))))
  have len4 : ∀ n m : Nat, (padDigits 4 n).length = (padDigits 4 m).length := by
    intro n m; rw [padDigits_length, padDigits_length]
  have len2 : ∀ n m : Nat, (padDigits 2 n).length = (padDigits 2 m).length := by
    intro n m; rw [padDigits_length, padDigits_length]
  rcases h with hy | ⟨hy, hmo | ⟨hmo, hd | ⟨hd, hh | ⟨hh, hmi | ⟨hmi, hs⟩⟩⟩⟩⟩
  · exact lex_append_both _ _ (len4 _ _)
      (padDigits_lt 4 (by norm_num; omega) (by norm_num; omega) hy)
  · rw [hy]
    refine lex_append_same _ (lex_append_both _ _ (len2 _ _) ?_)
    exact padDigits_lt 2 (by norm_num; omega) (by norm_num; omega) hmo
  · rw [hy, hmo]
    refine lex_append_same _ (lex_append_same _
      (lex_append_both _ _ (len2 _ _) ?_))
    exact padDigits_lt 2 (by norm_num; omega) (by norm_num; omega) hd
  · rw [hy, hmo, hd]
    refine lex_append_same _ (lex_append_same _ (lex_append_same _
      (List.Lex.cons (lex_append_both _ _ (len2 _ _) ?_))))
    exact padDigits_lt 2 (by norm_num; omega) (by norm_num; omega) hh
  · rw [hy, hmo, hd, hh]
    refine lex_append_same _ (lex_append_same _ (lex_append_same _
      (List.Lex.cons (lex_append_same _ (lex_append_both _ _ (len2 _ _) ?_)))))
    exact padDigits_lt 2 (by norm_num; omega) (by norm_num; omega) hmi
  · rw [hy, hmo, hd, hh, hmi]
    refine lex_append_same _ (lex_append_same _ (lex_append_same _
      (List.Lex.cons (lex_append_same _ (lex_append_same _
        (lex_append_both _ _ (len2 _ _) ?_))))))
    exact padDigits_lt 2 (by norm_num; omega) (by norm_num; omega) hs

/-- C8: segment identifiers derived from start timestamps compare in lexical
string order exactly as the timestamps compare chronologically at seconds
resolution — strictly earlier timestamps give lexically smaller identifiers,
equal (seconds-resolution) timestamps give equal identifiers, hence distinct
multi-minute segments receive unique sortable identifiers. -/
theorem segment_id_lexical_order (a b : UTCTime) (ha : a.Valid) (hb : b.Valid) :
    (UTCTime.earlier a b → strftimeBase a < strftimeBase b) ∧
    (a = b → strftimeBase a = strftimeBase b) ∧
    (UTCTime.earlier a b → strftimeBase a ≠ strftimeBase b) := by
  refine ⟨fun h => (string_lt_iff_lex _ _).mpr (strftime_lex ha hb h),
    fun h => by rw [h], fun h heq => ?_⟩
  have hlt := (string_lt_iff_lex _ _).mpr (strftime_lex ha hb h)
  rw [heq] at hlt
  exact lt_irrefl _ hlt

/-- Witness for C8 at two concrete segment start times five minutes apart. -/
theorem segment_id_lexical_order_witness :
    (UTCTime.mk 2024 1 1 10 0 0).Valid ∧ (UTCTime.mk 2024 1 1 10 5 0).Valid ∧
    ((UTCTime.earlier (UTCTime.mk 2024 1 1 10 0 0) (UTCTime.mk 2024 1 1 10 5 0) →
        strftimeBase (UTCTime.mk 2024 1 1 10 0 0) <
          strftimeBase (UTCTime.mk 2024 1 1 10 5 0)) ∧
      (UTCTime.mk 2024 1 1 10 0 0 = UTCTime.mk 2024 1 1 10 5 0 →
        strftimeBase (UTCTime.mk 2024 1 1 10 0 0) =
          strftimeBase (UTCTime.mk 2024 1 1 10 5 0)) ∧
      (UTCTime.earlier (UTCTime.mk 2024 1 1 10 0 0) (UTCTime.mk 2024 1 1 10 5 0) →
        strftimeBase (UTCTime.mk 2024 1 1 10 0 0) ≠
          strftimeBase (UTCTime.mk 2024 1 1 10 5 0))) :=
  ⟨by decide, by decide,
    segment_id_lexical_order _ _ (by decide) (by decide)⟩

lemma str_ext {s t : String} (h : s.data = t.data) : s = t := by
  cases s with
  | mk d1 =>
    cases t with
    | mk d2 => exact congrArg String.mk h

lemma txtPath_data (b : String) :
    (txtPath b).data = 't' :: 'e' :: 'm' :: 'p' :: '/' :: (b.data ++ ['.', 't', 'x', 't']) := rfl

lemma mp4Path_data (b : String) :
    (mp4Path b).data = 't' :: 'e' :: 'm' :: 'p' :: '/' :: (b.data ++ ['.', 'm', 'p', '4']) := rfl

lemma pathStem_txtPath (b : String) : pathStem (txtPath b) = b := by
  apply str_ext
  show ((txtPath b).data.drop 5).take ((txtPath b).data.length - 9) = b.data
  have h1 : (txtPath b).data.drop 5 = b.data ++ ['.', 't', 'x', 't'] := rfl
  have h2 : (txtPath b).data.length - 9 = b.data.length := by
    rw [txtPath_data]
    simp only [List.length_cons, List.length_append, List.length_cons, List.length_nil]
    omega
  rw [h1, h2]
  exact List.take_left b.data _

lemma with_suffix_txt_mp4Path (b : String) : with_suffix_txt (mp4Path b) = txtPath b := by
  apply str_ext
  show ((mp4Path b).data.take ((mp4Path b).data.length - 4)) ++ ['.', 't', 'x', 't']
      = (txtPath b).data
  have h2 : (mp4Path b).data.length - 4 = ('t' :: 'e' :: 'm' :: 'p' :: '/' :: b.data).length := by
    rw [mp4Path_data]
    simp only [List.length_cons, List.length_append, List.length_nil]
    omega
  have h3 : (mp4Path b).data = ('t' :: 'e' :: 'm' :: 'p' :: '/' :: b.data) ++ ['.', 'm', 'p', '4'] := by
    rw [mp4Path_data]; simp
  rw [h2, h3, List.take_left]
  rw [txtPath_data]; simp

lemma txtPath_length (b : String) : (txtPath b).data.length = b.data.length + 9 := by
  rw [txtPath_data]
  simp only [List.length_cons, List.length_append, List.length_nil]

lemma idsUpTo_succ (env : CaptureEnv) (k : Nat) :
    idsUpTo env (k + 1) = idsUpTo env k ++ [strftimeBase (env.start_ts k)] := by
  simp [idsUpTo, List.range_succ]

lemma recInv_step (env : CaptureEnv) (b : Bool) (s : RecRunState) (h : RecInv env s) :
    RecInv env (recStep env b s) := by
  obtain ⟨st, tasks, started⟩ := s
  obtain ⟨h1, h2, h3, h4⟩ := h
  cases st with
  | startIter k =>
      have ht : tasks = idsUpTo env k := (h1 k rfl).1
      have hs : started = List.range k := (h1 k rfl).2
      refine ⟨?_, ?_, ?_, ?_⟩ <;> intro k' hk' <;> simp [recStep] at hk' ⊢
      subst hk'
      exact ⟨ht, hs⟩
  | awaitingSpawn k =>
      have ht : tasks = idsUpTo env k := (h2 k rfl).1
      have hs : started = List.range k := (h2 k rfl).2
      cases b with
      | true =>
          refine ⟨?_, ?_, ?_, ?_⟩ <;> intro k' hk' <;> simp [recStep] at hk'
      | false =>
          refine ⟨?_, ?_, ?_, ?_⟩ <;> intro k' hk' <;> simp [recStep] at hk' ⊢
          subst hk'
          exact ⟨ht, by rw [hs, List.range_succ]⟩
  | awaitingWait k =>
      have ht : tasks = idsUpTo env k := (h3 k rfl).1
      have hs : started = List.range (k + 1) := (h3 k rfl).2
      cases b with
      | true =>
          refine ⟨?_, ?_, ?_, ?_⟩ <;> intro k' hk' <;> simp [recStep] at hk'
      | false =>
          refine ⟨?_, ?_, ?_, ?_⟩ <;> intro k' hk' <;> simp [recStep] at hk' ⊢
          subst hk'
          exact ⟨ht, hs⟩
  | afterWait k =>
      have ht : tasks = idsUpTo env k := (h4 k rfl).1
      have hs : started = List.range (k + 1) := (h4 k rfl).2
      refine ⟨?_, ?_, ?_, ?_⟩ <;> intro k' hk' <;> simp [recStep] at hk' ⊢
      subst hk'
      exact ⟨by rw [ht, idsUpTo_succ], hs⟩
  | cancelled =>
      exact ⟨h1, h2, h3, h4⟩

lemma recInv_run (env : CaptureEnv) (c n : Nat) : RecInv env (recRun env c n) := by
  induction n with
  | zero =>
      refine ⟨?_, ?_, ?_, ?_⟩ <;> intro k' hk' <;> simp [recRun] at hk' ⊢
      subst hk'
      exact ⟨rfl, rfl⟩
  | succ n ih => exact recInv_step env _ _ ih

lemma recRun_succ (env : CaptureEnv) (c n : Nat) :
    recRun env c (n + 1) = recStep env (decide (c ≤ n)) (recRun env c n) := rfl

lemma started_freeze_step (env : CaptureEnv) (c n : Nat) (hc : c ≤ n) :
    (recRun env c (n + 1)).started = (recRun env c n).started := by
  rw [recRun_succ, decide_eq_true hc]
  cases hrec : recRun env c n with
  | mk st tasks started =>
      cases st <;> simp [recStep]

lemma started_freeze (env : CaptureEnv) (c n m : Nat) (hc : c ≤ n) (hnm : n ≤ m) :
    (recRun env c m).started = (recRun env c n).started := by
  induction m, hnm using Nat.le_induction with
  | base => rfl
  | succ m hm ih =>
      rw [started_freeze_step env c m (le_trans hc hm)]
      exact ih

lemma cancelled_stays (env : CaptureEnv) (c n m : Nat)
    (h : (recRun env c n).st = RecState.cancelled) (hnm : n ≤ m) :
    recRun env c m = recRun env c n := by
  induction m, hnm using Nat.le_induction with
  | base => rfl
  | succ m hm ih =>
      rw [recRun_succ, ih]
      cases hrec : recRun env c n with
      | mk st tasks started =>
          rw [hrec] at h
          simp only at h
          subst h
          simp [recStep]

/-- C5: once cancellation has been requested (hence at the latest observed at
the next suspension point), no new segment capture is ever started: the
`started` list is frozen, the `cancelled` state is absorbing, and if the loop
was processing segment `K` when cancellation took effect then no iteration
beyond `K` ever spawns a capture process. -/
theorem no_new_capture_after_cancel (env : CaptureEnv) (c n m K : Nat)
    (hc : c ≤ n) (hnm : n ≤ m) :
    (recRun env c m).started = (recRun env c n).started ∧
    ((recRun env c n).st = RecState.cancelled → (recRun env c m).st = RecState.cancelled) ∧
    (((recRun env c n).st = RecState.awaitingSpawn K ∨
        (recRun env c n).st = RecState.awaitingWait K) →
      ∀ j ∈ (recRun env c m).started, j ≤ K) := by
  refine ⟨started_freeze env c n m hc hnm,
    fun h => by rw [cancelled_stays env c n m h hnm, h], ?_⟩
  intro hK j hj
  rw [started_freeze env c n m hc hnm] at hj
  obtain ⟨-, h2, h3, -⟩ := recInv_run env c n
  rcases hK with h | h
  · obtain ⟨-, hs⟩ := h2 K h
    rw [hs] at hj
    have := List.mem_range.mp hj
    omega
  · obtain ⟨-, hs⟩ := h3 K h
    rw [hs] at hj
    have := List.mem_range.mp hj
    omega

/-- Witness for C5: cancellation requested at step 2 of a concrete run, while
segment 0's capture is awaited; by step 10 nothing beyond segment 0 ever
started. -/
theorem no_new_capture_after_cancel_witness :
    2 ≤ 2 ∧ 2 ≤ 10 ∧
    ((recRun envZero 2 10).started = (recRun envZero 2 2).started ∧
    ((recRun envZero 2 2).st = RecState.cancelled →
      (recRun envZero 2 10).st = RecState.cancelled) ∧
    (((recRun envZero 2 2).st = RecState.awaitingSpawn 0 ∨
        (recRun envZero 2 2).st = RecState.awaitingWait 0) →
      ∀ j ∈ (recRun envZero 2 10).started, j ≤ 0)) :=
  ⟨by decide, by decide,
    no_new_capture_after_cancel envZero 2 2 10 0 (by decide) (by decide)⟩

/-- C2 counterexample: segment 0's external capture exits non-zero with no
usable artifact, yet after the iteration (step 4 of the run, no cancellation)
the loop has scheduled a transcription worker for that segment and moved on to
segment 1 — `recorder_loop` never checks the exit status, never reports any
failure, and never skips spawning the worker. -/
theorem capture_failure_still_spawns_worker :
    envFail.exit_code 0 = 1 ∧ envFail.artifact_ok 0 = false ∧
    (recRun envFail 100 4).tasks = [strftimeBase (envFail.start_ts 0)] ∧
    (recRun envFail 100 4).st = RecState.startIter 1 :=
  ⟨rfl, rfl, by decide, by decide⟩

lemma recStep_env_congr (env1 env2 : CaptureEnv) (b : Bool) (s : RecRunState)
    (hts : env1.start_ts = env2.start_ts) :
    recStep env1 b s = recStep env2 b s := by
  obtain ⟨st, tasks, started⟩ := s
  cases st <;> simp [recStep, hts]

/-- C2 amended: the capture loop ignores the capture outcome entirely — runs
over environments that agree on timestamps but differ arbitrarily in exit
statuses and artifact availability are identical, and every completed capture
iteration unconditionally schedules a transcription worker for its segment and
continues with the next segment. -/
theorem capture_outcome_ignored (env1 env2 : CaptureEnv) (c n k : Nat)
    (hts : env1.start_ts = env2.start_ts) :
    recRun env1 c n = recRun env2 c n ∧
    ((recRun env1 c n).st = RecState.afterWait k →
      (recRun env1 c (n + 1)).tasks
        = (recRun env1 c n).tasks ++ [strftimeBase (env1.start_ts k)] ∧
      (recRun env1 c (n + 1)).st = RecState.startIter (k + 1)) := by
  constructor
  · induction n with
    | zero => rfl
    | succ n ih =>
        rw [recRun_succ, recRun_succ, ih]
        exact recStep_env_congr env1 env2 _ _ hts
  · intro h
    rw [recRun_succ]
    cases hrec : recRun env1 c n with
    | mk st tasks started =>
        rw [hrec] at h
        simp only at h
        subst h
        simp [recStep]

/-- Witness for C2 amended: the failing-capture environment and the succeeding
one share timestamps, so their recorder runs coincide. -/
theorem capture_outcome_ignored_witness :
    envFail.start_ts = envZero.start_ts ∧
    (recRun envFail 100 3 = recRun envZero 100 3 ∧
    ((recRun envFail 100 3).st = RecState.afterWait 0 →
      (recRun envFail 100 4).tasks
        = (recRun envFail 100 3).tasks ++ [strftimeBase (envFail.start_ts 0)] ∧
      (recRun envFail 100 4).st = RecState.startIter 1)) :=
  ⟨rfl, capture_outcome_ignored envFail envZero 100 3 0 rfl⟩

/-- C4 amended: cancellation delivered while segment `K`'s capture is being
awaited aborts the recorder coroutine at that `await`: the loop exits
immediately, segment `K` is never handed to a transcription worker (the task
list stays exactly the workers of segments `0..K-1` forever), so the final
document is assembled without segment `K`. -/
theorem cancel_during_capture_drops_segment (env : CaptureEnv) (c n K m : Nat)
    (hc : c ≤ n) (hst : (recRun env c n).st = RecState.awaitingWait K)
    (hm : n < m) :
    recRun env c m = ⟨RecState.cancelled, idsUpTo env K, List.range (K + 1)⟩ := by
  obtain ⟨-, -, h3, -⟩ := recInv_run env c n
  obtain ⟨ht, hs⟩ := h3 K hst
  have hstep : recRun env c (n + 1)
      = ⟨RecState.cancelled, idsUpTo env K, List.range (K + 1)⟩ := by
    rw [recRun_succ, decide_eq_true hc]
    cases hrec : recRun env c n with
    | mk st tasks started =>
        rw [hrec] at hst ht hs
        simp only at hst ht hs
        subst hst
        subst ht
        subst hs
        simp [recStep]
  calc recRun env c m = recRun env c (n + 1) :=
        cancelled_stays env c (n + 1) m (by rw [hstep]) hm
    _ = _ := hstep

/-- Witness for C4 amended: the concrete run cancelled at step 2 during
segment 0's capture; from step 3 on the recorder is finished with an empty
task list. -/
theorem cancel_during_capture_drops_segment_witness :
    2 ≤ 2 ∧ (recRun envZero 2 2).st = RecState.awaitingWait 0 ∧ 2 < 5 ∧
    recRun envZero 2 5 = ⟨RecState.cancelled, idsUpTo envZero 0, List.range 1⟩ :=
  ⟨by decide, by decide, by decide,
    cancel_during_capture_drops_segment envZero 2 2 0 5 (by decide) (by decide) (by decide)⟩

lemma runGatherAux_error (outs : List (Except String String)) :
    ∀ order, ∀ i ∈ order, isOkB (outs.getD i (Except.ok "")) = false →
      ∃ e, (runGatherAux outs order).1 = some e := by
  intro order
  induction order with
  | nil => intro i hi; cases hi
  | cons j rest ih =>
      intro i hi herr
      cases hj : outs.getD j (Except.ok "") with
      | error e => exact ⟨e, by simp only [runGatherAux]; rw [hj]⟩
      | ok v =>
          rcases List.mem_cons.mp hi with rfl | hmem
          · rw [hj] at herr
            simp [isOkB] at herr
          · obtain ⟨e, he⟩ := ih i hmem herr
            refine ⟨e, ?_⟩
            simp only [runGatherAux]
            rw [hj]
            exact he

lemma gather_crashes_on_error (outs : List (Except String String))
    (order : List Nat) (fs : String → String) (i : Nat) (hi : i ∈ order)
    (herr : isOkB (outs.getD i (Except.ok "")) = false) :
    ∃ e, gatherAssemble outs order fs = MainOutcome.crashed e := by
  obtain ⟨e, he⟩ := runGatherAux_error outs order i hi herr
  refine ⟨e, ?_⟩
  have hg : (runGather outs order).result = Except.error e := by
    unfold runGather
    cases hr : runGatherAux outs order with
    | mk o js =>
        have he2 : o = some e := by rw [hr] at he; exact he
        subst he2
        rfl
  unfold gatherAssemble
  rw [hg]

lemma runGatherAux_ok (outs : List (Except String String))
    (hok : ∀ o ∈ outs, isOkB o = true) :
    ∀ order, runGatherAux outs order = (none, order) := by
  intro order
  induction order with
  | nil => rfl
  | cons j rest ih =>
      have hj : isOkB (outs.getD j (Except.ok "")) = true := by
        rw [List.getD_eq_getElem?_getD]
        cases hx : outs[j]? with
        | none => rfl
        | some x => exact hok x (List.getElem?_mem hx)
      cases hv : outs.getD j (Except.ok "") with
      | error e => rw [hv] at hj; simp [isOkB] at hj
      | ok v =>
          simp only [runGatherAux]
          rw [hv, ih]

/-- C3 amended: a transcription failure is not captured as a `Failed` result —
as soon as the first failed task's completion is consumed at the drain
barrier, `asyncio.gather(..., return_exceptions=False)` re-raises its
exception out of `main`: the whole pipeline aborts, assembly never runs, no
document is produced, and even the successfully transcribed segments appear
nowhere. -/
theorem transcription_failure_aborts_assembly (outs : List (Except String String))
    (order : List Nat) (fs : String → String) (i : Nat) (hi : i ∈ order)
    (herr : isOkB (outs.getD i (Except.ok "")) = false) :
    ∃ e, gatherAssemble outs order fs = MainOutcome.crashed e :=
  gather_crashes_on_error outs order fs i hi herr

/-- Witness for C3 amended: three tasks, the middle one failed; the pipeline
crashes with that service error. -/
theorem transcription_failure_aborts_assembly_witness :
    (1 : Nat) ∈ [0, 1, 2] ∧
    isOkB ((taskOutcomes svcFailSecond
        ["20240101T100000Z", "20240101T100500Z", "20240101T101000Z"]).getD 1
      (Except.ok "")) = false ∧
    ∃ e, gatherAssemble
        (taskOutcomes svcFailSecond
          ["20240101T100000Z", "20240101T100500Z", "20240101T101000Z"])
        [0, 1, 2] (fun _ => "") = MainOutcome.crashed e :=
  ⟨by decide, by decide,
    transcription_failure_aborts_assembly _ [0, 1, 2] _ 1 (by decide) (by decide)⟩

/-- C3 counterexample: transcription of the middle segment fails while its
neighbours succeed; instead of excluding only that segment, the pipeline
crashes with the service error and produces no document, so the successful
segments J-1 and J+1 appear nowhere. -/
theorem transcription_failure_crashes_pipeline :
    gatherAssemble
        (taskOutcomes svcFailSecond
          ["20240101T100000Z", "20240101T100500Z", "20240101T101000Z"])
        [0, 1, 2] (fun _ => "")
      = MainOutcome.crashed "service error" := by
  decide

/-- C6 amended: the drain barrier is a full barrier only on failure-free runs:
if every worker succeeds, every spawned worker is joined exactly once and the
gather returns all values, after which assembly proceeds; but when a worker
raises, the workers completing after the first failure are never joined and
assembly never happens. -/
theorem drain_barrier_on_success (outs : List (Except String String))
    (order : List Nat) (hperm : order.Perm (List.range outs.length))
    (hok : ∀ o ∈ outs, isOkB o = true) :
    (runGather outs order).joined = order ∧
    (∀ i, i < outs.length → List.count i (runGather outs order).joined = 1) ∧
    (runGather outs order).result = Except.ok (okValues outs) := by
  have haux := runGatherAux_ok outs hok order
  have hg : runGather outs order = ⟨Except.ok (okValues outs), order⟩ := by
    unfold runGather
    rw [haux]
  rw [hg]
  refine ⟨rfl, ?_, rfl⟩
  intro i hi
  have hnodup : order.Nodup := hperm.nodup_iff.mpr (List.nodup_range _)
  have hmem : i ∈ order := hperm.mem_iff.mpr (List.mem_range.mpr hi)
  exact List.count_eq_one_of_mem hnodup hmem

/-- Witness for C6 amended: two successful workers completing in reverse
order are both joined exactly once and the gather succeeds. -/
theorem drain_barrier_on_success_witness :
    ([1, 0] : List Nat).Perm
      (List.range ([Except.ok "temp/a.txt", Except.ok "temp/b.txt"]
        : List (Except String String)).length) ∧
    (∀ o ∈ ([Except.ok "temp/a.txt", Except.ok "temp/b.txt"]
        : List (Except String String)), isOkB o = true) ∧
    ((runGather [Except.ok "temp/a.txt", Except.ok "temp/b.txt"] [1, 0]).joined
        = [1, 0] ∧
    (∀ i, i < ([Except.ok "temp/a.txt", Except.ok "temp/b.txt"]
        : List (Except String String)).length →
      List.count i
        (runGather [Except.ok "temp/a.txt", Except.ok "temp/b.txt"] [1, 0]).joined
        = 1) ∧
    (runGather [Except.ok "temp/a.txt", Except.ok "temp/b.txt"] [1, 0]).result
        = Except.ok (okValues [Except.ok "temp/a.txt", Except.ok "temp/b.txt"])) :=
  ⟨by decide, by decide,
    drain_barrier_on_success _ [1, 0] (by decide) (by decide)⟩

/-- C6 counterexample: two spawned workers; worker 1 completes first with an
exception, so the gather aborts — worker 0 is never joined before the
pipeline terminates, and assembly never happens. -/
theorem worker_not_joined_after_failure :
    (runGather [Except.ok "temp/a.txt", Except.error "boom"] [1, 0]).joined = [1] ∧
    (0 : Nat) ∉ (runGather [Except.ok "temp/a.txt", Except.error "boom"] [1, 0]).joined ∧
    (runGather [Except.ok "temp/a.txt", Except.error "boom"] [1, 0]).result
      = Except.error "boom" ∧
    gatherAssemble [Except.ok "temp/a.txt", Except.error "boom"] [1, 0] (fun _ => "")
      = MainOutcome.crashed "boom" :=
  ⟨rfl, by decide, rfl, rfl⟩

/-- C9 amended: only when no transcription task was ever spawned does the
pipeline reach the "Brak transkrypcji do połączenia." report (and create no
file); if tasks exist and none succeeded, the drain re-raises the first
failure and `main` terminates with an unhandled exception, reporting
nothing. -/
theorem no_transcripts_report_only_when_no_tasks (outs : List (Except String String))
    (order : List Nat) (fs : String → String)
    (hperm : order.Perm (List.range outs.length)) :
    (outs = [] → gatherAssemble outs order fs = MainOutcome.noTranscripts) ∧
    (outs ≠ [] → (∀ o ∈ outs, isOkB o = false) →
      ∃ e, gatherAssemble outs order fs = MainOutcome.crashed e) := by
  constructor
  · intro h
    subst h
    have h0 : order = [] := List.Perm.eq_nil (by simpa using hperm)
    subst h0
    rfl
  · intro hne hall
    have hpos : 0 < outs.length := by
      cases outs with
      | nil => exact absurd rfl hne
      | cons o os => simp
    have h0 : (0 : Nat) ∈ order := hperm.mem_iff.mpr (List.mem_range.mpr hpos)
    have herr : isOkB (outs.getD 0 (Except.ok "")) = false := by
      cases outs with
      | nil => exact absurd rfl hne
      | cons o os => exact hall o (List.mem_cons_self o os)
    exact gather_crashes_on_error outs order fs 0 h0 herr

/-- Witness for C9 amended: the empty run reports no transcripts; a run whose
single task failed crashes instead. -/
theorem no_transcripts_report_only_when_no_tasks_witness :
    ([] : List Nat).Perm (List.range ([] : List (Except String String)).length) ∧
    (([] : List (Except String String)) = [] →
      gatherAssemble [] [] (fun _ => "") = MainOutcome.noTranscripts) ∧
    (([] : List (Except String String)) ≠ [] →
      (∀ o ∈ ([] : List (Except String String)), isOkB o = false) →
      ∃ e, gatherAssemble [] [] (fun _ => "") = MainOutcome.crashed e) :=
  ⟨by decide,
    (no_transcripts_report_only_when_no_tasks [] [] (fun _ => "") (by decide)).1,
    (no_transcripts_report_only_when_no_tasks [] [] (fun _ => "") (by decide)).2⟩

/-- C9 counterexample: a run with one spawned task whose transcription failed
has zero successes, yet the pipeline does not report the no-transcripts
outcome — it terminates with the unhandled service exception. -/
theorem all_failed_crashes_unreported :
    gatherAssemble [Except.error "boom"] [0] (fun _ => "") = MainOutcome.crashed "boom" ∧
    gatherAssemble [Except.error "boom"] [0] (fun _ => "")
      ≠ MainOutcome.noTranscripts :=
  ⟨rfl, by decide⟩

/-- C4 counterexample: in the concrete run cancelled while segment 0's capture
was awaited, the recorder exits without scheduling any transcription worker;
segment 0 is never transcribed and the pipeline ends with no document at all,
so no document contains segment 0's transcript. -/
theorem cancel_mid_capture_loses_segment :
    (recRun envZero 2 2).st = RecState.awaitingWait 0 ∧
    (recRun envZero 2 10).st = RecState.cancelled ∧
    (recRun envZero 2 10).tasks = [] ∧
    gatherAssemble
        (taskOutcomes (fun _ => Except.ok "text") (recRun envZero 2 10).tasks)
        [] (fun _ => "")
      = MainOutcome.noTranscripts :=
  ⟨by decide, by decide, by decide, rfl⟩

lemma txtPath_lt_iff {a b : String} (h : a.data.length = b.data.length) :
    txtPath a < txtPath b ↔ a < b := by
  rw [string_lt_iff_lex, string_lt_iff_lex, txtPath_data, txtPath_data,
    List.Lex.cons_iff, List.Lex.cons_iff, List.Lex.cons_iff, List.Lex.cons_iff,
    List.Lex.cons_iff]
  exact lex_append_same_right_iff ['.', 't', 'x', 't'] a.data b.data h

lemma txtPath_inj {a b : String} (h : txtPath a = txtPath b) : a = b := by
  rw [← pathStem_txtPath a, h, pathStem_txtPath]

lemma txtPath_le_iff {a b : String} (h : a.data.length = b.data.length) :
    txtPath a ≤ txtPath b ↔ a ≤ b := by
  rw [le_iff_lt_or_eq, le_iff_lt_or_eq]
  exact or_congr (txtPath_lt_iff h) ⟨txtPath_inj, fun h2 => by rw [h2]⟩

lemma orderedInsert_txtPath (b : String) (l : List String)
    (h : ∀ x ∈ l, x.data.length = b.data.length) :
    List.orderedInsert (fun a c : String => a ≤ c) (txtPath b) (l.map txtPath)
      = (List.orderedInsert (fun a c : String => a ≤ c) b l).map txtPath := by
  induction l with
  | nil => rfl
  | cons c cs ih =>
      have hlen : b.data.length = c.data.length := (h c (List.mem_cons_self c cs)).symm
      simp only [List.map_cons, List.orderedInsert]
      by_cases hbc : b ≤ c
      · rw [if_pos ((txtPath_le_iff hlen).mpr hbc), if_pos hbc, List.map_cons, List.map_cons]
      · rw [if_neg (fun hc => hbc ((txtPath_le_iff hlen).mp hc)), if_neg hbc,
          List.map_cons, ih (fun x hx => h x (List.mem_cons_of_mem c hx))]

lemma insertionSort_txtPath (l : List String) (h : ∀ x ∈ l, x.data.length = 16) :
    List.insertionSort (fun a c : String => a ≤ c) (l.map txtPath)
      = (List.insertionSort (fun a c : String => a ≤ c) l).map txtPath := by
  induction l with
  | nil => rfl
  | cons b bs ih =>
      simp only [List.map_cons, List.insertionSort]
      rw [ih (fun x hx => h x (List.mem_cons_of_mem b hx))]
      apply orderedInsert_txtPath
      intro x hx
      have hmem : x ∈ bs :=
        (List.perm_insertionSort (fun a c : String => a ≤ c) bs).mem_iff.mp hx
      rw [h x (List.mem_cons_of_mem b hmem), h b (List.mem_cons_self b bs)]

lemma strftimeBase_length (t : UTCTime) : (strftimeBase t).data.length = 16 := by
  show (padDigits 4 t.year ++ (padDigits 2 t.month ++ (padDigits 2 t.day ++
    ('T' :: (padDigits 2 t.hour ++ (padDigits 2 t.minute ++
    (padDigits 2 t.second ++ ['Z']))))))).length = 16
  simp [padDigits_length]

lemma docIds_eq (ids : List String) (h16 : ∀ x ∈ ids, x.data.length = 16) :
    docIds ids = List.insertionSort (fun a c : String => a ≤ c) ids := by
  unfold docIds sortTxtFiles
  rw [insertionSort_txtPath ids h16, List.map_map]
  calc (List.insertionSort (fun a c : String => a ≤ c) ids).map (pathStem ∘ txtPath)
      = (List.insertionSort (fun a c : String => a ≤ c) ids).map id :=
        List.map_congr_left (fun a _ => pathStem_txtPath a)
    _ = _ := List.map_id _

lemma entryFor_txtPath (fs : String → String) (b : String) :
    entryFor fs (txtPath b)
      = "----- " ++ b ++ " -----\n" ++ fs (txtPath b) ++ "\n\n" := by
  simp [entryFor, pathStem_txtPath]

lemma docConcat_append (l1 l2 : List String) :
    docConcat (l1 ++ l2) = docConcat l1 ++ docConcat l2 := by
  induction l1 with
  | nil =>
      apply str_ext
      show (docConcat l2).data = ([] : List Char) ++ (docConcat l2).data
      simp
  | cons e es ih =>
      show e ++ docConcat (es ++ l2) = (e ++ docConcat es) ++ docConcat l2
      rw [ih, String.append_assoc]

lemma runGather_all_ok (outs : List (Except String String))
    (hok : ∀ o ∈ outs, isOkB o = true) (order : List Nat) :
    runGather outs order = ⟨Except.ok (okValues outs), order⟩ := by
  unfold runGather
  rw [runGatherAux_ok outs hok order]

lemma taskOutcomes_all_ok (svc : String → Except String String) (ids : List String)
    (hsvc : ∀ b ∈ ids, isOkB (svc (mp4Path b)) = true) :
    ∀ o ∈ taskOutcomes svc ids, isOkB o = true := by
  intro o ho
  obtain ⟨b, hb, rfl⟩ := List.mem_map.mp ho
  unfold transcribe_file
  cases hcall : svc (mp4Path b) with
  | error e =>
      have hfalse := hsvc b hb
      rw [hcall] at hfalse
      simp [isOkB] at hfalse
  | ok v => rfl

lemma taskOutcomes_values (svc : String → Except String String) (ids : List String)
    (hsvc : ∀ b ∈ ids, isOkB (svc (mp4Path b)) = true) :
    okValues (taskOutcomes svc ids) = ids.map txtPath := by
  unfold okValues taskOutcomes
  rw [List.map_map]
  apply List.map_congr_left
  intro b hb
  show okValue (transcribe_file svc (mp4Path b)) = txtPath b
  unfold transcribe_file
  cases hcall : svc (mp4Path b) with
  | error e =>
      have := hsvc b hb
      rw [hcall] at this
      simp [isOkB] at this
  | ok v =>
      show okValue (Except.ok (with_suffix_txt (mp4Path b))) = txtPath b
      rw [with_suffix_txt_mp4Path]
      rfl

lemma assemble_txtPaths (fs : String → String) (ids : List String) (hne : ids ≠ [])
    (h16 : ∀ x ∈ ids, x.data.length = 16) :
    ∃ path, assemble fs (ids.map txtPath) = some (path,
      docConcat ((docIds ids).map (fun b =>
        "----- " ++ b ++ " -----\n" ++ fs (txtPath b) ++ "\n\n"))) := by
  have hsort : sortTxtFiles (ids.map txtPath) = (docIds ids).map txtPath := by
    rw [docIds_eq ids h16]
    exact insertionSort_txtPath ids h16
  have hlen : (docIds ids).length = ids.length := by
    rw [docIds_eq ids h16, List.length_insertionSort]
  cases hd : docIds ids with
  | nil =>
      rw [hd] at hlen
      cases ids with
      | nil => exact absurd rfl hne
      | cons x xs => simp at hlen
  | cons fb rb =>
      rw [hd] at hsort
      have hdoc : (txtPath fb :: rb.map txtPath).map (entryFor fs)
          = (fb :: rb).map (fun b =>
              "----- " ++ b ++ " -----\n" ++ fs (txtPath b) ++ "\n\n") := by
        have h1 : (txtPath fb :: rb.map txtPath) = (fb :: rb).map txtPath := rfl
        rw [h1, List.map_map]
        exact List.map_congr_left (fun a _ => entryFor_txtPath fs a)
      unfold assemble
      rw [hsort, List.map_cons]
      refine ⟨"temp/dialog_" ++ pathStem (txtPath fb) ++ "_"
          ++ pathStem ((txtPath fb :: rb.map txtPath).getLast (List.cons_ne_nil _ _))
          ++ ".txt", ?_⟩
      show some ("temp/dialog_" ++ pathStem (txtPath fb) ++ "_"
          ++ pathStem ((txtPath fb :: rb.map txtPath).getLast (List.cons_ne_nil _ _))
          ++ ".txt",
        docConcat ((txtPath fb :: rb.map txtPath).map (entryFor fs))) = _
      rw [hdoc]

/-- C7: assembly is deterministic and idempotent — for a fixed set of
successful worker outcomes, any two completion orders of the workers yield the
same outcome of the drain-and-assembly phase: same output path, byte-identical
document. -/
theorem assembly_deterministic (outs : List (Except String String))
    (o1 o2 : List Nat) (fs : String → String)
    (hok : ∀ o ∈ outs, isOkB o = true) :
    gatherAssemble outs o1 fs = gatherAssemble outs o2 fs := by
  unfold gatherAssemble
  rw [runGather_all_ok outs hok o1, runGather_all_ok outs hok o2]

/-- Witness for C7: two successful workers, the two completion orders. -/
theorem assembly_deterministic_witness :
    (∀ o ∈ ([Except.ok "temp/b.txt", Except.ok "temp/a.txt"]
        : List (Except String String)), isOkB o = true) ∧
    gatherAssemble [Except.ok "temp/b.txt", Except.ok "temp/a.txt"] [0, 1]
        (fun _ => "text")
      = gatherAssemble [Except.ok "temp/b.txt", Except.ok "temp/a.txt"] [1, 0]
        (fun _ => "text") :=
  ⟨by decide, assembly_deterministic _ [0, 1] [1, 0] _ (by decide)⟩

/-- C10: format of a non-empty assembled document — every entry, the last one
included, is the delimiter line `----- <segment_id> -----` followed by a
newline, the transcript text, then exactly two newline characters, so the
document ends in a blank line; the output file is named
`dialog_<first>_<last>.txt` from the first and last stems of the sorted
sequence, the two coinciding when exactly one transcript exists. -/
theorem document_format (fs : String → String) (ids : List String) (hne : ids ≠ []) :
    ∃ first rest,
      sortTxtFiles (ids.map txtPath) = first :: rest ∧
      assemble fs (ids.map txtPath) = some
        ("temp/dialog_" ++ pathStem first ++ "_"
            ++ pathStem ((first :: rest).getLast (List.cons_ne_nil first rest)) ++ ".txt",
          docConcat ((first :: rest).map (entryFor fs))) ∧
      ((first :: rest).map pathStem).Perm ids ∧
      (∀ t, entryFor fs t = "----- " ++ pathStem t ++ " -----\n" ++ fs t ++ "\n\n") ∧
      (∃ p, docConcat ((first :: rest).map (entryFor fs)) = p ++ "\n\n") ∧
      (∀ b, ids = [b] → assemble fs (ids.map txtPath) = some
          ("temp/dialog_" ++ b ++ "_" ++ b ++ ".txt",
            "----- " ++ b ++ " -----\n" ++ fs (txtPath b) ++ "\n\n")) := by
  have hlen : (sortTxtFiles (ids.map txtPath)).length = ids.length := by
    unfold sortTxtFiles
    rw [List.length_insertionSort, List.length_map]
  cases hsort : sortTxtFiles (ids.map txtPath) with
  | nil =>
      rw [hsort] at hlen
      cases ids with
      | nil => exact absurd rfl hne
      | cons x xs => simp at hlen
  | cons first rest =>
      refine ⟨first, rest, rfl, ?_, ?_, fun t => rfl, ?_, ?_⟩
      · unfold assemble
        rw [hsort]
      · have hperm : (first :: rest).Perm (ids.map txtPath) := by
          rw [← hsort]
          exact List.perm_insertionSort _ _
        have hmap := hperm.map pathStem
        rw [List.map_map] at hmap
        have h2 : ids.map (pathStem ∘ txtPath) = ids :=
          (List.map_congr_left (fun a _ => pathStem_txtPath a)).trans (List.map_id ids)
        rw [h2] at hmap
        exact hmap
      · rcases List.eq_nil_or_concat (first :: rest) with h | ⟨L, lastE, hL⟩
        · simp at h
        · rw [List.concat_eq_append] at hL
          rw [hL, List.map_append, docConcat_append]
          refine ⟨docConcat (L.map (entryFor fs))
            ++ ("----- " ++ pathStem lastE ++ " -----\n" ++ fs lastE), ?_⟩
          show docConcat (L.map (entryFor fs)) ++ docConcat [entryFor fs lastE] = _
          have hone : docConcat [entryFor fs lastE] = entryFor fs lastE := by
            show entryFor fs lastE ++ "" = entryFor fs lastE
            apply str_ext
            simp
          rw [hone]
          show docConcat (L.map (entryFor fs))
              ++ ("----- " ++ pathStem lastE ++ " -----\n" ++ fs lastE ++ "\n\n") = _
          rw [← String.append_assoc]
      · intro b hb
        subst hb
        have hone : sortTxtFiles ([b].map txtPath) = [txtPath b] := rfl
        unfold assemble
        rw [hone]
        have hdoc : docConcat ([txtPath b].map (entryFor fs))
            = "----- " ++ b ++ " -----\n" ++ fs (txtPath b) ++ "\n\n" := by
          show entryFor fs (txtPath b) ++ "" = _
          have hemp : entryFor fs (txtPath b) ++ "" = entryFor fs (txtPath b) := by
            apply str_ext
            simp
          rw [hemp, entryFor_txtPath]
        show some ("temp/dialog_" ++ pathStem (txtPath b) ++ "_"
            ++ pathStem (([txtPath b] : List String).getLast (List.cons_ne_nil _ _))
            ++ ".txt",
          docConcat ([txtPath b].map (entryFor fs)))
          = some ("temp/dialog_" ++ b ++ "_" ++ b ++ ".txt",
            "----- " ++ b ++ " -----\n" ++ fs (txtPath b) ++ "\n\n")
        have hlast : ([txtPath b] : List String).getLast (List.cons_ne_nil _ _)
            = txtPath b := rfl
        rw [hlast, pathStem_txtPath, hdoc]

/-- Witness for C10 at a two-segment input given in reverse lexical order. -/
theorem document_format_witness :
    (["20240101T100500Z", "20240101T100000Z"] : List String) ≠ [] ∧
    (∃ first rest,
      sortTxtFiles ((["20240101T100500Z", "20240101T100000Z"] : List String).map txtPath)
        = first :: rest ∧
      assemble (fun _ => "text")
          ((["20240101T100500Z", "20240101T100000Z"] : List String).map txtPath) = some
        ("temp/dialog_" ++ pathStem first ++ "_"
            ++ pathStem ((first :: rest).getLast (List.cons_ne_nil first rest)) ++ ".txt",
          docConcat ((first :: rest).map (entryFor (fun _ => "text")))) ∧
      ((first :: rest).map pathStem).Perm ["20240101T100500Z", "20240101T100000Z"] ∧
      (∀ t, entryFor (fun _ => "text") t
          = "----- " ++ pathStem t ++ " -----\n" ++ (fun _ => "text") t ++ "\n\n") ∧
      (∃ p, docConcat ((first :: rest).map (entryFor (fun _ => "text"))) = p ++ "\n\n") ∧
      (∀ b, (["20240101T100500Z", "20240101T100000Z"] : List String) = [b] →
        assemble (fun _ => "text")
            ((["20240101T100500Z", "20240101T100000Z"] : List String).map txtPath) = some
          ("temp/dialog_" ++ b ++ "_" ++ b ++ ".txt",
            "----- " ++ b ++ " -----\n" ++ (fun _ => "text") (txtPath b) ++ "\n\n"))) :=
  ⟨by decide, document_format (fun _ => "text") _ (by decide)⟩

/-- C1: for every nonempty collection of N segments — identifiers produced by
the segment namer — whose captures and transcriptions all succeed, and every
order in which the transcription workers complete, the assembled document
contains exactly N entries, one per segment, ordered by ascending segment id
(lexical sort). -/
theorem assembled_document_sorted (ids : List String)
    (svc : String → Except String String) (fs : String → String)
    (order : List Nat) (hne : ids ≠ [])
    (hids : ∀ b ∈ ids, ∃ t : UTCTime, b = strftimeBase t)
    (hsvc : ∀ b ∈ ids, isOkB (svc (mp4Path b)) = true)
    (_hord : order.Perm (List.range (taskOutcomes svc ids).length)) :
    ∃ path,
      gatherAssemble (taskOutcomes svc ids) order fs = MainOutcome.document path
        (docConcat ((docIds ids).map (fun b =>
          "----- " ++ b ++ " -----\n" ++ fs (txtPath b) ++ "\n\n"))) ∧
      (docIds ids).length = ids.length ∧
      (docIds ids).Perm ids ∧
      List.Sorted (fun a c : String => a ≤ c) (docIds ids) := by
  have h16 : ∀ x ∈ ids, x.data.length = 16 := by
    intro x hx
    obtain ⟨t, rfl⟩ := hids x hx
    exact strftimeBase_length t
  have hallok := taskOutcomes_all_ok svc ids hsvc
  have hvals := taskOutcomes_values svc ids hsvc
  obtain ⟨path, hasm⟩ := assemble_txtPaths fs ids hne h16
  refine ⟨path, ?_, ?_, ?_, ?_⟩
  · unfold gatherAssemble
    rw [runGather_all_ok _ hallok order]
    show (match assemble fs (okValues (taskOutcomes svc ids)) with
      | none => MainOutcome.noTranscripts
      | some pd => MainOutcome.document pd.1 pd.2) = _
    rw [hvals, hasm]
  · rw [docIds_eq ids h16, List.length_insertionSort]
  · rw [docIds_eq ids h16]
    exact List.perm_insertionSort _ ids
  · rw [docIds_eq ids h16]
    exact List.sorted_insertionSort _ ids

/-- Witness for C1: two segments handed over in reverse lexical order, workers
completing in reverse order. -/
theorem assembled_document_sorted_witness :
    (["20240101T100500Z", "20240101T100000Z"] : List String) ≠ [] ∧
    (∀ b ∈ (["20240101T100500Z", "20240101T100000Z"] : List String),
      ∃ t : UTCTime, b = strftimeBase t) ∧
    (∀ b ∈ (["20240101T100500Z", "20240101T100000Z"] : List String),
      isOkB ((fun _ => Except.ok "text" : String → Except String String) (mp4Path b))
        = true) ∧
    ([1, 0] : List Nat).Perm
      (List.range (taskOutcomes (fun _ => Except.ok "text")
        ["20240101T100500Z", "20240101T100000Z"]).length) ∧
    (∃ path,
      gatherAssemble
          (taskOutcomes (fun _ => Except.ok "text")
            ["20240101T100500Z", "20240101T100000Z"])
          [1, 0] (fun _ => "text")
        = MainOutcome.document path
          (docConcat ((docIds ["20240101T100500Z", "20240101T100000Z"]).map (fun b =>
            "----- " ++ b ++ " -----\n" ++ (fun _ => "text") (txtPath b) ++ "\n\n"))) ∧
      (docIds ["20240101T100500Z", "20240101T100000Z"]).length
        = (["20240101T100500Z", "20240101T100000Z"] : List String).length ∧
      (docIds ["20240101T100500Z", "20240101T100000Z"]).Perm
        ["20240101T100500Z", "20240101T100000Z"] ∧
      List.Sorted (fun a c : String => a ≤ c)
        (docIds ["20240101T100500Z", "20240101T100000Z"])) := by
  have hids : ∀ b ∈ (["20240101T100500Z", "20240101T100000Z"] : List String),
      ∃ t : UTCTime, b = strftimeBase t := by
    intro b hb
    rcases List.mem_cons.mp hb with rfl | hb2
    · exact ⟨⟨2024, 1, 1, 10, 5, 0⟩, by decide⟩
    rcases List.mem_cons.mp hb2 with rfl | hb3
    · exact ⟨⟨2024, 1, 1, 10, 0, 0⟩, by decide⟩
    cases hb3
  exact ⟨by decide, hids, by decide, by decide,
    assembled_document_sorted _ _ _ [1, 0] (by decide) hids (by decide) (by decide)⟩

end PulseTranscribe
